import Mathlib

/-!
Verification of the gene-expression-matrix aggregation script (`blca-GEM.py`).

The script is a single pipeline: discover `.tsv` files, parse each one by
skipping a fixed number of header lines and extracting two fixed columns from
every remaining tab-separated line, aggregate the extracted (gene, value)
pairs into a gene → sample → value mapping while tracking sample ids in
first-seen order, and finally emit a rectangular gene × sample TSV matrix
with `NA` for missing cells.

The embedding below models the Python code directly: Python `dict`s become
insertion-ordered association lists (`dict` preserves insertion order, and
assignment to an existing key keeps its position), `str.strip()` becomes
`pyStrip`, `str.split('\t')` becomes `splitTab`, and the per-file `try`
block becomes a `ReadResult` that either yields all lines (`ok`) or yields a
prefix of lines before the read fails (`failAfter`).
-/

/-- The characters removed from both ends of a line by Python `str.strip()`
(the ASCII whitespace subset relevant to text lines). -/
def isPySpace (c : Char) : Bool :=
  c = ' ' || c = '\t' || c = '\n' || c = '\r' || c = '\x0b' || c = '\x0c'

/-- Python `str.strip()` on the character list: drop whitespace from the
front and from the back. -/
def pyStripList (l : List Char) : List Char :=
  ((l.dropWhile isPySpace).reverse.dropWhile isPySpace).reverse

/-- Python `line.strip()`. -/
def pyStrip (s : String) : String :=
  ⟨pyStripList s.data⟩

/-- Python `s.split('\t')` on a character list: split into fields at every
tab; the empty string yields one empty field. -/
def splitTab : List Char → List (List Char)
  | [] => [[]]
  | c :: rest =>
    match splitTab rest with
    | [] => [[]]
    | f :: fs => if c = '\t' then [] :: f :: fs else (c :: f) :: fs

/-- Rejoin tab-split fields with tabs (used to express that splitting loses
no characters). -/
def joinTab : List (List Char) → List Char
  | [] => []
  | [f] => f
  | f :: fs => f ++ '\t' :: joinTab fs

/-- The `parts` list of the script: `line.strip().split('\t')`. -/
def lineParts (line : String) : List String :=
  (splitTab (pyStripList line.data)).map (fun l => (⟨l⟩ : String))

/-- One iteration of the line loop: split the stripped line on tabs, skip the
line when it has too few fields, otherwise return the gene and value fields. -/
def parseLine (gene_column_index expression_column_index : Nat) (line : String) :
    Option (String × String) :=
  let parts := lineParts line
  if parts.length ≤ max gene_column_index expression_column_index then none
  else some (parts.getD gene_column_index "", parts.getD expression_column_index "")

/-- Whether a character list begins with the four characters `.tsv`. -/
def startsWithTsv : List Char → Bool
  | a :: b :: c :: d :: _ => a = '.' && b = 't' && c = 's' && d = 'v'
  | _ => false

/-- The prefix of a character list before the first occurrence of `.tsv`
(the whole list when `.tsv` does not occur): Python `s.split(".tsv")[0]`. -/
def beforeTsv : List Char → List Char
  | [] => []
  | c :: rest => if startsWithTsv (c :: rest) then [] else c :: beforeTsv rest

/-- Sample id of the script: `os.path.basename(file_path).split(".tsv")[0]`,
applied here to the base name. -/
def sampleIdOf (basename : String) : String :=
  ⟨beforeTsv basename.data⟩

/-- Whether `.tsv` occurs anywhere in a character list. -/
def hasTsv : List Char → Bool
  | [] => false
  | c :: rest => startsWithTsv (c :: rest) || hasTsv rest

/-- The aggregation state of the script: `gene_data` is the Python dict
mapping gene name to the dict mapping sample id to value (both dicts keep
insertion order, so they are modelled as association lists where assignment
to a present key overwrites in place and a new key is appended at the end),
and `sample_ids` is the list of sample ids in first-seen order. -/
structure AggState where
  gene_data : List (String × List (String × String))
  sample_ids : List String
deriving DecidableEq

/-- The initial state: `gene_data = {}`, `sample_ids = []`. -/
def emptyAgg : AggState := ⟨[], []⟩

/-- Dict lookup on an association list. -/
def lookupA (k : String) : List (String × String) → Option String
  | [] => none
  | (k', v) :: rest => if k' = k then some v else lookupA k rest

/-- Dict assignment `m[k] = v`: overwrite in place when the key is present,
append at the end when it is new. -/
def setValue (k v : String) : List (String × String) → List (String × String)
  | [] => [(k, v)]
  | (k', v') :: rest => if k' = k then (k, v) :: rest else (k', v') :: setValue k v rest

/-- The body of the line loop after a successful parse:
`gene_data[gene_name] = {}` when absent, then
`gene_data[gene_name][sample_id] = expression_value`. -/
def updateGene (gene sid value : String) :
    List (String × List (String × String)) → List (String × List (String × String))
  | [] => [(gene, [(sid, value)])]
  | (g, m) :: rest =>
    if g = gene then (g, setValue sid value m) :: rest
    else (g, m) :: updateGene gene sid value rest

/-- Lookup of a gene's inner dict in `gene_data`. -/
def lookupGene (g : String) : List (String × List (String × String)) →
    Option (List (String × String))
  | [] => none
  | (g', m) :: rest => if g' = g then some m else lookupGene g rest

/-- The aggregator's record operation on the full state. -/
def recordValue (st : AggState) (gene sid value : String) : AggState :=
  { st with gene_data := updateGene gene sid value st.gene_data }

/-- Registration of a sample id:
`if sample_id not in sample_ids: sample_ids.append(sample_id)`. -/
def registerSample (st : AggState) (sid : String) : AggState :=
  if sid ∈ st.sample_ids then st else { st with sample_ids := st.sample_ids ++ [sid] }

/-- The three numeric parameters of `parse_gene_expression_files`. -/
structure Params where
  gene_column_index : Nat
  expression_column_index : Nat
  skip_rows : Nat
deriving DecidableEq

/-- The script's default parameters. -/
def defaultParams : Params := ⟨1, 5, 6⟩

/-- One iteration of the line loop on the aggregation state. -/
def lineStep (p : Params) (sid : String) (st : AggState) (line : String) : AggState :=
  match parseLine p.gene_column_index p.expression_column_index line with
  | none => st
  | some gv => recordValue st gv.1 sid gv.2

/-- The line loop over the data lines of one file. -/
def processLines (p : Params) (sid : String) (st : AggState) (lines : List String) :
    AggState :=
  lines.foldl (lineStep p sid) st

/-- The outcome of reading one file inside the `try` block: either every line
is yielded (`ok`), or the read raises after yielding a prefix of the lines
(`failAfter`); `failAfter []` is a file that cannot even be opened. -/
inductive ReadResult where
  | ok (lines : List String)
  | failAfter (lines : List String)
deriving DecidableEq

/-- A discovered file: its base name and the outcome of reading it. -/
structure TsvFile where
  basename : String
  content : ReadResult
deriving DecidableEq

/-- The lines a read actually yields before completing or failing. -/
def linesOf : ReadResult → List String
  | .ok ls => ls
  | .failAfter ls => ls

/-- Whether the read raised an exception. -/
def isFail : ReadResult → Bool
  | .ok _ => false
  | .failAfter _ => true

/-- The state of a whole run: the aggregation state plus the base names of
the files whose processing was caught by the `except` clause and reported. -/
structure RunResult where
  st : AggState
  errors : List String
deriving DecidableEq

/-- Processing of one discovered file: derive the sample id and register it,
then inside the `try` block skip `skip_rows` lines and run the line loop over
the rest of the lines the read yields; a failing read keeps everything
recorded so far and appends an error report. -/
def stepFile (p : Params) (r : RunResult) (f : TsvFile) : RunResult :=
  let sid := sampleIdOf f.basename
  let st1 := registerSample r.st sid
  let st2 := processLines p sid st1 ((linesOf f.content).drop p.skip_rows)
  { st := st2
    errors := if isFail f.content then r.errors ++ [f.basename] else r.errors }

/-- The file loop over every discovered file, from the empty state. -/
def runFiles (p : Params) (files : List TsvFile) : RunResult :=
  files.foldl (stepFile p) ⟨emptyAgg, []⟩

/-- The emitted table: a header row `Gene` followed by the sample ids, then
one row per gene in `gene_data` insertion order whose cells are the stored
values, with `NA` where no value is stored (the DataFrame construction,
`at` assignments, `fillna("NA")` and index naming of the script). -/
def emitTable (st : AggState) : List (List String) :=
  ("Gene" :: st.sample_ids) ::
    st.gene_data.map (fun gm =>
      gm.1 :: st.sample_ids.map (fun s => (lookupA s gm.2).getD "NA"))

/-- The cell of a table at row `i`, column `j`. -/
def cellAt (t : List (List String)) (i j : Nat) : String :=
  (t.getD i []).getD j ""

/-- Tab-separated serialization with one line per row, as `to_csv(sep='\t')`
writes it. -/
def serializeTable (t : List (List String)) : String :=
  String.join (t.map (fun row => String.intercalate "\t" row ++ "\n"))

/-- The whole pipeline on an already-discovered file list: the text written
to the output file. -/
def parse_gene_expression_files (p : Params) (files : List TsvFile) : String :=
  serializeTable (emitTable (runFiles p files).st)

/-- The (gene, sample id, value) triples one file contributes, in order. -/
def filePairs (p : Params) (f : TsvFile) : List (String × String × String) :=
  ((linesOf f.content).drop p.skip_rows).filterMap
    (fun line =>
      (parseLine p.gene_column_index p.expression_column_index line).map
        (fun gv => (gv.1, sampleIdOf f.basename, gv.2)))

/-- All triples of a run, file by file. -/
def allPairs (p : Params) (files : List TsvFile) : List (String × String × String) :=
  (files.map (filePairs p)).flatten

/-- Lookup of the stored value for a (gene, sample) pair. -/
def storeLookup (st : AggState) (g s : String) : Option String :=
  match lookupGene g st.gene_data with
  | none => none
  | some m => lookupA s m

/-- The value of the last triple for a given (gene, sample) pair, if any. -/
def lastValue (ps : List (String × String × String)) (g s : String) : Option String :=
  ps.foldl (fun acc t => if t.1 = g ∧ t.2.1 = s then some t.2.2 else acc) none

/-- Replay of a triple list on a `gene_data` dictionary. -/
def foldRecord (gd : List (String × List (String × String)))
    (ps : List (String × String × String)) : List (String × List (String × String)) :=
  ps.foldl (fun gd t => updateGene t.1 t.2.1 t.2.2 gd) gd

/-- Lookup of a (gene, sample) value directly on a `gene_data` dictionary. -/
def lookupGS (gd : List (String × List (String × String))) (g s : String) : Option String :=
  match lookupGene g gd with
  | none => none
  | some m => lookupA s m

/-- First-seen-order set insertion, folded over a list. -/
def regFold (acc : List String) (l : List String) : List String :=
  l.foldl (fun acc s => if s ∈ acc then acc else acc ++ [s]) acc

/-- First-seen-order deduplication of a list. -/
def dedupFirstSeen (l : List String) : List String :=
  regFold [] l

/-- Distinct-keys well-formedness of a `gene_data` dictionary: gene keys are
pairwise distinct and every inner dictionary has pairwise distinct sample
keys, so at most one value is stored per (gene, sample) pair. -/
def WFgd (gd : List (String × List (String × String))) : Prop :=
  (gd.map Prod.fst).Nodup ∧ ∀ gm ∈ gd, (gm.2.map Prod.fst).Nodup

/-- Modelled from the spec: "the tab-split of the line with only the line
ending removed" — removal of trailing CR/LF characters only, leaving all
other edge whitespace in place. This definition follows the spec's words,
for comparison with `lineParts`, which follows the code. -/
def dropLineEnd (l : List Char) : List Char :=
  (l.reverse.dropWhile (fun c => c = '\n' || c = '\r')).reverse

/-- Modelled from the spec: the fields of a line as the spec describes them,
the tab-split of the line with only the line ending removed. -/
def specFields (line : String) : List String :=
  (splitTab (dropLineEnd line.data)).map (fun l => (⟨l⟩ : String))

/-- Deletion of the first occurrence of `.tsv` from a character list,
keeping everything after it. -/
def removeFirstTsvL : List Char → List Char
  | [] => []
  | c :: rest =>
    if startsWithTsv (c :: rest) then rest.drop 3 else c :: removeFirstTsvL rest

/-- Modelled from the spec: "the file's base name with the first occurrence
of the extension suffix '.tsv' removed" — the base name with exactly that
first occurrence deleted. This definition follows the spec's words, for
comparison with `sampleIdOf`, which follows the code. -/
def removeFirstTsv (basename : String) : String :=
  ⟨removeFirstTsvL basename.data⟩

/-! ### Dictionary lemmas -/

theorem lookupA_setValue (s k v : String) (m : List (String × String)) :
    lookupA s (setValue k v m) = if k = s then some v else lookupA s m := by
  induction m with
  | nil => simp [setValue, lookupA]
  | cons kv rest ih =>
    obtain ⟨k1, v1⟩ := kv
    by_cases hk : k1 = k
    · subst hk
      simp only [setValue, if_pos rfl, lookupA]
      by_cases hs : k1 = s <;> simp [hs]
    · simp only [setValue, if_neg hk, lookupA, ih]
      by_cases hs : k1 = s
      · have hks : ¬ k = s := fun h => hk (hs.trans h.symm)
        simp [hs, hks]
      · simp [hs]

theorem keys_setValue (k v : String) (m : List (String × String)) :
    (setValue k v m).map Prod.fst =
      if k ∈ m.map Prod.fst then m.map Prod.fst else m.map Prod.fst ++ [k] := by
  induction m with
  | nil => simp [setValue]
  | cons kv rest ih =>
    obtain ⟨k1, v1⟩ := kv
    by_cases hk : k1 = k
    · subst hk
      simp [setValue]
    · simp only [setValue, if_neg hk, List.map_cons, ih]
      have hk' : ¬ k = k1 := fun h => hk h.symm
      by_cases hmem : k ∈ rest.map Prod.fst <;> simp [hmem, hk']

theorem lookupGene_updateGene (g0 g s v : String)
    (gd : List (String × List (String × String))) :
    lookupGene g0 (updateGene g s v gd) =
      if g = g0 then some (setValue s v ((lookupGene g gd).getD []))
      else lookupGene g0 gd := by
  induction gd with
  | nil => simp [updateGene, lookupGene, setValue]
  | cons gm rest ih =>
    obtain ⟨g1, m⟩ := gm
    by_cases hg : g1 = g
    · subst hg
      simp only [updateGene, if_pos rfl, lookupGene]
      by_cases h0 : g1 = g0
      · subst h0
        simp [lookupGene]
      · have h0' : ¬ g1 = g0 := h0
        simp [lookupGene, h0']
    · simp only [updateGene, if_neg hg, lookupGene, ih]
      by_cases h0 : g1 = g0
      · subst h0
        have hgg0 : ¬ g = g1 := fun h => hg h.symm
        simp [hgg0]
      · simp [h0, lookupGene, hg]

theorem lookupGS_updateGene (g0 s0 v g s : String)
    (gd : List (String × List (String × String))) :
    lookupGS (updateGene g0 s0 v gd) g s =
      if g0 = g ∧ s0 = s then some v else lookupGS gd g s := by
  unfold lookupGS
  rw [lookupGene_updateGene]
  by_cases hg : g0 = g
  · subst hg
    simp only [if_pos rfl]
    cases hgen : lookupGene g0 gd with
    | none => simp [lookupA_setValue, lookupA]
    | some m => simp [lookupA_setValue]
  · have : ¬ (g0 = g ∧ s0 = s) := fun h => hg h.1
    simp [hg, this]

theorem keys_updateGene (g s v : String)
    (gd : List (String × List (String × String))) :
    (updateGene g s v gd).map Prod.fst =
      if g ∈ gd.map Prod.fst then gd.map Prod.fst else gd.map Prod.fst ++ [g] := by
  induction gd with
  | nil => simp [updateGene]
  | cons gm rest ih =>
    obtain ⟨g1, m⟩ := gm
    by_cases hg : g1 = g
    · subst hg
      simp [updateGene]
    · simp only [updateGene, if_neg hg, List.map_cons, ih]
      have hg' : ¬ g = g1 := fun h => hg h.symm
      by_cases hmem : g ∈ rest.map Prod.fst <;> simp [hmem, hg']

theorem lookupGS_foldRecord (ps : List (String × String × String))
    (gd : List (String × List (String × String))) (g s : String) :
    lookupGS (foldRecord gd ps) g s =
      ps.foldl (fun acc t => if t.1 = g ∧ t.2.1 = s then some t.2.2 else acc)
        (lookupGS gd g s) := by
  induction ps generalizing gd with
  | nil => rfl
  | cons t ps ih =>
    simp only [foldRecord, List.foldl_cons]
    rw [show (List.foldl (fun gd t => updateGene t.1 t.2.1 t.2.2 gd)
          (updateGene t.1 t.2.1 t.2.2 gd) ps) =
        foldRecord (updateGene t.1 t.2.1 t.2.2 gd) ps from rfl, ih,
      lookupGS_updateGene]

theorem lookupGS_foldRecord_nil (ps : List (String × String × String)) (g s : String) :
    lookupGS (foldRecord [] ps) g s = lastValue ps g s := by
  rw [lookupGS_foldRecord]
  rfl

/-! ### State-component lemmas -/

theorem sample_ids_lineStep (p : Params) (sid : String) (st : AggState) (line : String) :
    (lineStep p sid st line).sample_ids = st.sample_ids := by
  unfold lineStep
  cases parseLine p.gene_column_index p.expression_column_index line <;> rfl

theorem sample_ids_processLines (p : Params) (sid : String) (ls : List String)
    (st : AggState) : (processLines p sid st ls).sample_ids = st.sample_ids := by
  induction ls generalizing st with
  | nil => rfl
  | cons l ls ih =>
    show (processLines p sid (lineStep p sid st l) ls).sample_ids = st.sample_ids
    rw [ih, sample_ids_lineStep]

theorem gene_data_registerSample (st : AggState) (sid : String) :
    (registerSample st sid).gene_data = st.gene_data := by
  unfold registerSample
  split <;> rfl

theorem sample_ids_registerSample (st : AggState) (sid : String) :
    (registerSample st sid).sample_ids =
      if sid ∈ st.sample_ids then st.sample_ids else st.sample_ids ++ [sid] := by
  unfold registerSample
  split <;> simp_all

theorem registerSample_mem (st : AggState) (sid : String) (h : sid ∈ st.sample_ids) :
    registerSample st sid = st := by
  unfold registerSample
  rw [if_pos h]

theorem gene_data_processLines (p : Params) (sid : String) (ls : List String)
    (st : AggState) :
    (processLines p sid st ls).gene_data =
      foldRecord st.gene_data
        (ls.filterMap (fun line =>
          (parseLine p.gene_column_index p.expression_column_index line).map
            (fun gv => (gv.1, sid, gv.2)))) := by
  induction ls generalizing st with
  | nil => rfl
  | cons l ls ih =>
    show (processLines p sid (lineStep p sid st l) ls).gene_data = _
    rw [ih]
    cases h : parseLine p.gene_column_index p.expression_column_index l with
    | none =>
      have hstep : lineStep p sid st l = st := by simp [lineStep, h]
      rw [hstep]
      simp [List.filterMap_cons, h]
    | some gv =>
      have hstep : lineStep p sid st l = recordValue st gv.1 sid gv.2 := by
        simp [lineStep, h]
      rw [hstep]
      simp only [List.filterMap_cons, h, Option.map_some]
      rfl

theorem stepFile_gene_data (p : Params) (r : RunResult) (f : TsvFile) :
    (stepFile p r f).st.gene_data = foldRecord r.st.gene_data (filePairs p f) := by
  show (processLines p (sampleIdOf f.basename)
      (registerSample r.st (sampleIdOf f.basename))
      ((linesOf f.content).drop p.skip_rows)).gene_data = _
  rw [gene_data_processLines, gene_data_registerSample]
  rfl

theorem stepFile_sample_ids (p : Params) (r : RunResult) (f : TsvFile) :
    (stepFile p r f).st.sample_ids =
      if sampleIdOf f.basename ∈ r.st.sample_ids then r.st.sample_ids
      else r.st.sample_ids ++ [sampleIdOf f.basename] := by
  show (processLines p (sampleIdOf f.basename)
      (registerSample r.st (sampleIdOf f.basename))
      ((linesOf f.content).drop p.skip_rows)).sample_ids = _
  rw [sample_ids_processLines, sample_ids_registerSample]

theorem stepFile_errors (p : Params) (r : RunResult) (f : TsvFile) :
    (stepFile p r f).errors =
      if isFail f.content then r.errors ++ [f.basename] else r.errors := rfl

theorem foldl_stepFile_sample_ids (p : Params) (files : List TsvFile) (r : RunResult) :
    (files.foldl (stepFile p) r).st.sample_ids =
      regFold r.st.sample_ids (files.map (fun f => sampleIdOf f.basename)) := by
  induction files generalizing r with
  | nil => rfl
  | cons f fs ih =>
    show (fs.foldl (stepFile p) (stepFile p r f)).st.sample_ids = _
    rw [ih, stepFile_sample_ids]
    simp only [List.map_cons]
    rfl

theorem runFiles_sample_ids (p : Params) (files : List TsvFile) :
    (runFiles p files).st.sample_ids =
      dedupFirstSeen (files.map (fun f => sampleIdOf f.basename)) :=
  foldl_stepFile_sample_ids p files ⟨emptyAgg, []⟩

theorem foldRecord_append (gd : List (String × List (String × String)))
    (a b : List (String × String × String)) :
    foldRecord gd (a ++ b) = foldRecord (foldRecord gd a) b := by
  unfold foldRecord
  rw [List.foldl_append]

theorem foldl_stepFile_gene_data (p : Params) (files : List TsvFile) (r : RunResult) :
    (files.foldl (stepFile p) r).st.gene_data =
      foldRecord r.st.gene_data (allPairs p files) := by
  induction files generalizing r with
  | nil => rfl
  | cons f fs ih =>
    show (fs.foldl (stepFile p) (stepFile p r f)).st.gene_data = _
    rw [ih, stepFile_gene_data]
    simp only [allPairs, List.map_cons, List.flatten_cons]
    rw [foldRecord_append]

theorem runFiles_gene_data (p : Params) (files : List TsvFile) :
    (runFiles p files).st.gene_data = foldRecord [] (allPairs p files) :=
  foldl_stepFile_gene_data p files ⟨emptyAgg, []⟩

theorem foldl_stepFile_errors (p : Params) (files : List TsvFile) (r : RunResult) :
    (files.foldl (stepFile p) r).errors =
      r.errors ++ (files.filter (fun f => isFail f.content)).map
        (fun f => f.basename) := by
  induction files generalizing r with
  | nil => simp
  | cons f fs ih =>
    show (fs.foldl (stepFile p) (stepFile p r f)).errors = _
    rw [ih, stepFile_errors]
    by_cases h : isFail f.content <;> simp [h, List.filter_cons]

theorem runFiles_errors (p : Params) (files : List TsvFile) :
    (runFiles p files).errors =
      (files.filter (fun f => isFail f.content)).map (fun f => f.basename) :=
  foldl_stepFile_errors p files ⟨emptyAgg, []⟩

/-! ### First-seen order and distinctness -/

theorem mem_regFold (l : List String) (acc : List String) (s : String) :
    s ∈ regFold acc l ↔ s ∈ acc ∨ s ∈ l := by
  induction l generalizing acc with
  | nil => simp [regFold]
  | cons x l ih =>
    show s ∈ regFold (if x ∈ acc then acc else acc ++ [x]) l ↔ _
    rw [ih]
    by_cases hx : x ∈ acc
    · rw [if_pos hx]
      simp only [List.mem_cons]
      constructor
      · rintro (h | h)
        · exact Or.inl h
        · exact Or.inr (Or.inr h)
      · rintro (h | h | h)
        · exact Or.inl h
        · subst h
          exact Or.inl hx
        · exact Or.inr h
    · rw [if_neg hx]
      simp [List.mem_append, or_assoc]

theorem nodup_regFold (l : List String) (acc : List String) (h : acc.Nodup) :
    (regFold acc l).Nodup := by
  induction l generalizing acc with
  | nil => exact h
  | cons x l ih =>
    show (regFold (if x ∈ acc then acc else acc ++ [x]) l).Nodup
    by_cases hx : x ∈ acc
    · rw [if_pos hx]
      exact ih acc h
    · rw [if_neg hx]
      refine ih _ ?_
      simp [List.nodup_append, h, hx]

theorem nodup_dedupFirstSeen (l : List String) : (dedupFirstSeen l).Nodup :=
  nodup_regFold l [] List.nodup_nil

theorem mem_dedupFirstSeen (l : List String) (s : String) :
    s ∈ dedupFirstSeen l ↔ s ∈ l := by
  rw [dedupFirstSeen, mem_regFold]
  simp

theorem keys_foldRecord (ps : List (String × String × String))
    (gd : List (String × List (String × String))) :
    (foldRecord gd ps).map Prod.fst =
      regFold (gd.map Prod.fst) (ps.map (fun t => t.1)) := by
  induction ps generalizing gd with
  | nil => rfl
  | cons t ps ih =>
    show (foldRecord (updateGene t.1 t.2.1 t.2.2 gd) ps).map Prod.fst = _
    rw [ih, keys_updateGene]
    simp only [List.map_cons]
    rfl

theorem runFiles_keys (p : Params) (files : List TsvFile) :
    (runFiles p files).st.gene_data.map Prod.fst =
      dedupFirstSeen ((allPairs p files).map (fun t => t.1)) := by
  rw [runFiles_gene_data, keys_foldRecord]
  rfl

/-! ### Well-formedness -/

theorem inner_nodup_updateGene (g s v : String)
    (gd : List (String × List (String × String)))
    (h : ∀ gm ∈ gd, (gm.2.map Prod.fst).Nodup) :
    ∀ gm ∈ updateGene g s v gd, (gm.2.map Prod.fst).Nodup := by
  induction gd with
  | nil =>
    intro gm hm
    simp only [updateGene, List.mem_singleton] at hm
    subst hm
    simp
  | cons g1m rest ih =>
    obtain ⟨g1, m⟩ := g1m
    intro gm hm
    by_cases hg : g1 = g
    · rw [updateGene, if_pos hg] at hm
      rcases List.mem_cons.mp hm with h1 | h1
      · have hmn : (m.map Prod.fst).Nodup := h (g1, m) (by simp)
        subst h1
        simp only
        rw [keys_setValue]
        by_cases hsm : s ∈ m.map Prod.fst
        · rw [if_pos hsm]
          exact hmn
        · rw [if_neg hsm]
          simp [List.nodup_append, hmn, hsm]
      · exact h gm (List.mem_cons_of_mem _ h1)
    · rw [updateGene, if_neg hg] at hm
      rcases List.mem_cons.mp hm with h1 | h1
      · subst h1
        exact h (g1, m) (by simp)
      · exact ih (fun gm hm => h gm (List.mem_cons_of_mem _ hm)) gm h1

theorem WFgd_updateGene (g s v : String) (gd : List (String × List (String × String)))
    (h : WFgd gd) : WFgd (updateGene g s v gd) := by
  obtain ⟨hkeys, hinner⟩ := h
  constructor
  · rw [keys_updateGene]
    by_cases hg : g ∈ gd.map Prod.fst
    · rw [if_pos hg]
      exact hkeys
    · rw [if_neg hg]
      simp [List.nodup_append, hkeys, hg]
  · exact inner_nodup_updateGene g s v gd hinner

theorem WFgd_foldRecord (ps : List (String × String × String))
    (gd : List (String × List (String × String))) (h : WFgd gd) :
    WFgd (foldRecord gd ps) := by
  induction ps generalizing gd with
  | nil => exact h
  | cons t ps ih => exact ih _ (WFgd_updateGene _ _ _ _ h)

theorem WFgd_empty : WFgd [] := by
  constructor
  · simp
  · intro gm hm
    simp at hm

theorem WFgd_runFiles (p : Params) (files : List TsvFile) :
    WFgd (runFiles p files).st.gene_data := by
  rw [runFiles_gene_data]
  exact WFgd_foldRecord _ _ WFgd_empty

/-! ### Column lemmas -/

theorem colNone_updateGene (g s0 v s : String)
    (gd : List (String × List (String × String))) (hs : ¬ s0 = s)
    (h : ∀ gm ∈ gd, lookupA s gm.2 = none) :
    ∀ gm ∈ updateGene g s0 v gd, lookupA s gm.2 = none := by
  induction gd with
  | nil =>
    intro gm hm
    simp only [updateGene, List.mem_singleton] at hm
    subst hm
    simp [lookupA, hs]
  | cons g1m rest ih =>
    obtain ⟨g1, m⟩ := g1m
    intro gm hm
    by_cases hg : g1 = g
    · rw [updateGene, if_pos hg] at hm
      rcases List.mem_cons.mp hm with h1 | h1
      · subst h1
        simp only
        rw [lookupA_setValue, if_neg hs]
        exact h (g1, m) (by simp)
      · exact h gm (List.mem_cons_of_mem _ h1)
    · rw [updateGene, if_neg hg] at hm
      rcases List.mem_cons.mp hm with h1 | h1
      · subst h1
        exact h (g1, m) (by simp)
      · exact ih (fun gm hm => h gm (List.mem_cons_of_mem _ hm)) gm h1

theorem colNone_foldRecord (ps : List (String × String × String))
    (gd : List (String × List (String × String))) (s : String)
    (hs : s ∉ ps.map (fun t => t.2.1))
    (h : ∀ gm ∈ gd, lookupA s gm.2 = none) :
    ∀ gm ∈ foldRecord gd ps, lookupA s gm.2 = none := by
  induction ps generalizing gd with
  | nil => exact h
  | cons t ps ih =>
    have hs1 : ¬ t.2.1 = s := by
      intro hEq
      exact hs (by simp [hEq.symm])
    have hs2 : s ∉ ps.map (fun t => t.2.1) := by
      intro hmem
      exact hs (by simp [hmem])
    exact ih _ hs2 (colNone_updateGene t.1 t.2.1 t.2.2 s gd hs1 h)

/-! ### Indexed access -/

theorem lookupGene_getElem (gd : List (String × List (String × String))) (i : Nat)
    (hi : i < gd.length) (hnd : (gd.map Prod.fst).Nodup) :
    lookupGene (gd.get ⟨i, hi⟩).1 gd = some (gd.get ⟨i, hi⟩).2 := by
  induction gd generalizing i with
  | nil => simp at hi
  | cons gm rest ih =>
    rw [List.map_cons, List.nodup_cons] at hnd
    cases i with
    | zero => simp [lookupGene]
    | succ i =>
      have hi' : i < rest.length := by simpa using hi
      have hmem : (rest.get ⟨i, hi'⟩).1 ∈ rest.map Prod.fst := by
        exact List.mem_map_of_mem _ (rest.get_mem _ _)
      have hne : ¬ gm.1 = (rest.get ⟨i, hi'⟩).1 := by
        intro hEq
        exact hnd.1 (hEq ▸ hmem)
      show lookupGene (rest.get ⟨i, hi'⟩).1 (gm :: rest) = some (rest.get ⟨i, hi'⟩).2
      rw [lookupGene, if_neg hne]
      exact ih i hi' hnd.2

theorem cellAt_emitTable (st : AggState) (i j : Nat)
    (hi : i < st.gene_data.length) (hj : j < st.sample_ids.length) :
    cellAt (emitTable st) (i + 1) (j + 1) =
      (lookupA (st.sample_ids.get ⟨j, hj⟩)
        (st.gene_data.get ⟨i, hi⟩).2).getD "NA" := by
  have hrow : (emitTable st).getD (i + 1) [] =
      (st.gene_data.get ⟨i, hi⟩).1 ::
        st.sample_ids.map
          (fun s => (lookupA s (st.gene_data.get ⟨i, hi⟩).2).getD "NA") := by
    unfold emitTable
    rw [List.getD_cons_succ]
    have hi' : i < (st.gene_data.map (fun gm =>
        gm.1 :: st.sample_ids.map (fun s => (lookupA s gm.2).getD "NA"))).length := by
      simpa using hi
    rw [List.getD_eq_getElem _ _ hi', List.getElem_map]
    rfl
  unfold cellAt
  rw [hrow, List.getD_cons_succ]
  have hj' : j < (st.sample_ids.map
      (fun s => (lookupA s (st.gene_data.get ⟨i, hi⟩).2).getD "NA")).length := by
    simpa using hj
  rw [List.getD_eq_getElem _ _ hj', List.getElem_map]
  rfl

/-! ### String-level lemmas -/

theorem splitTab_ne_nil (l : List Char) : splitTab l ≠ [] := by
  cases l with
  | nil => simp [splitTab]
  | cons c rest =>
    cases h : splitTab rest with
    | nil => simp [splitTab, h]
    | cons f fs =>
      by_cases hc : c = '\t' <;> simp [splitTab, h, hc]

theorem joinTab_cons_cons (c : Char) (f : List Char) (fs : List (List Char)) :
    joinTab ((c :: f) :: fs) = c :: joinTab (f :: fs) := by
  cases fs <;> rfl

theorem joinTab_splitTab (l : List Char) : joinTab (splitTab l) = l := by
  induction l with
  | nil => rfl
  | cons c rest ih =>
    cases h : splitTab rest with
    | nil => exact absurd h (splitTab_ne_nil rest)
    | cons f fs =>
      by_cases hc : c = '\t'
      · subst hc
        show joinTab (splitTab ('\t' :: rest)) = '\t' :: rest
        rw [splitTab, h]
        simp only [if_pos rfl]
        show '\t' :: joinTab (f :: fs) = '\t' :: rest
        rw [← h, ih]
      · show joinTab (splitTab (c :: rest)) = c :: rest
        rw [splitTab, h]
        simp only [if_neg hc]
        rw [joinTab_cons_cons, ← h, ih]

theorem pyStripList_decomp (l : List Char) :
    ∃ pre post, l = pre ++ pyStripList l ++ post ∧
      pre.all isPySpace ∧ post.all isPySpace := by
  refine ⟨l.takeWhile isPySpace,
    ((l.dropWhile isPySpace).reverse.takeWhile isPySpace).reverse, ?_, ?_, ?_⟩
  · conv_lhs => rw [← @List.takeWhile_append_dropWhile _ isPySpace l]
    rw [List.append_assoc]
    congr 1
    conv_lhs => rw [← List.reverse_reverse (l.dropWhile isPySpace),
      ← @List.takeWhile_append_dropWhile _ isPySpace (l.dropWhile isPySpace).reverse]
    rw [List.reverse_append]
    rfl
  · exact List.all_eq_true.mpr fun x hx => List.mem_takeWhile_imp hx
  · exact List.all_eq_true.mpr fun x hx =>
      List.mem_takeWhile_imp (List.mem_reverse.mp hx)

theorem startsWithTsv_false_of_head (c : Char) (pre suf : List Char)
    (h : startsWithTsv (c :: pre) = false) :
    startsWithTsv (c :: (pre ++ '.' :: 't' :: 's' :: 'v' :: suf)) = false := by
  cases pre with
  | nil => simp [startsWithTsv]
  | cons a pre2 =>
    cases pre2 with
    | nil => simp [startsWithTsv]
    | cons b pre3 =>
      cases pre3 with
      | nil => simp [startsWithTsv]
      | cons d pre4 => simpa [startsWithTsv] using h

theorem beforeTsv_append (pre suf : List Char) (h : hasTsv pre = false) :
    beforeTsv (pre ++ '.' :: 't' :: 's' :: 'v' :: suf) = pre := by
  induction pre with
  | nil => simp [beforeTsv, startsWithTsv]
  | cons c pre ih =>
    rw [hasTsv, Bool.or_eq_false_iff] at h
    rw [List.cons_append, beforeTsv,
      startsWithTsv_false_of_head c pre suf h.1]
    simp only [Bool.false_eq_true, if_false]
    rw [ih h.2]

theorem removeFirstTsvL_suffix (pre : List Char) (h : hasTsv pre = false) :
    removeFirstTsvL (pre ++ '.' :: 't' :: 's' :: 'v' :: []) = pre := by
  induction pre with
  | nil => decide
  | cons c pre ih =>
    rw [hasTsv, Bool.or_eq_false_iff] at h
    rw [List.cons_append, removeFirstTsvL,
      startsWithTsv_false_of_head c pre [] h.1]
    simp only [Bool.false_eq_true, if_false]
    rw [ih h.2]

/-! ### Claims -/

/-- Claim C1 (counterexample): the parser does not emit the pair taken from
the tab-split of the line with only the line ending removed; on the line
`" chr1\tTP53\t.\t.\t.\t12.3 \n"` (six fields either way, so the claim
applies) the code strips the edge space and emits the value `"12.3"`, while
the claimed fields give `"12.3 "`. -/
theorem C1_counterexample :
    (specFields " chr1\tTP53\t.\t.\t.\t12.3 \n").length = 6 ∧
    parseLine 1 5 " chr1\tTP53\t.\t.\t.\t12.3 \n" ≠
      some ((specFields " chr1\tTP53\t.\t.\t.\t12.3 \n").getD 1 "",
        (specFields " chr1\tTP53\t.\t.\t.\t12.3 \n").getD 5 "") := by
  decide

/-- Claim C1 (amended): for every data line whose field count exceeds
`max geneColumnIndex valueColumnIndex`, the parser emits exactly
(fields[geneColumnIndex], fields[valueColumnIndex]) where fields is the
tab-split of the line with all leading and trailing whitespace stripped
(not only the line ending); splitting loses no character of the stripped
line, so internal whitespace of fields is preserved verbatim, and the
stripped part is exactly a whitespace prefix and a whitespace suffix. -/
theorem C1_theorem (g e : Nat) (line : String)
    (h : max g e < (lineParts line).length) :
    parseLine g e line =
      some ((lineParts line).getD g "", (lineParts line).getD e "")
    ∧ joinTab (splitTab (pyStrip line).data) = (pyStrip line).data
    ∧ ∃ pre post, line.data = pre ++ (pyStrip line).data ++ post ∧
        pre.all isPySpace ∧ post.all isPySpace := by
  refine ⟨?_, joinTab_splitTab _, pyStripList_decomp line.data⟩
  unfold parseLine
  rw [if_neg (not_le.mpr h)]

/-- Claim C1 (witness): the amended theorem applied to the default column
indices and a well-formed data line. -/
theorem C1_witness :
    max 1 5 < (lineParts "chr1\tTP53\t.\t.\t.\t12.3\n").length ∧
    parseLine 1 5 "chr1\tTP53\t.\t.\t.\t12.3\n" =
      some ((lineParts "chr1\tTP53\t.\t.\t.\t12.3\n").getD 1 "",
        (lineParts "chr1\tTP53\t.\t.\t.\t12.3\n").getD 5 "") :=
  ⟨by decide, (C1_theorem 1 5 "chr1\tTP53\t.\t.\t.\t12.3\n" (by decide)).1⟩

/-- Claim C2: with default parameters, the two-file end-to-end example of
the spec produces exactly the two-line TSV `Gene\tA\tB` then
`TP53\t12.3\t9.8`. -/
theorem C2_theorem :
    parse_gene_expression_files defaultParams
      [⟨"A.tsv", .ok ["#\n", "#\n", "#\n", "#\n", "#\n", "#\n",
          "chr1\tTP53\t.\t.\t.\t12.3\n"]⟩,
       ⟨"B.tsv", .ok ["#\n", "#\n", "#\n", "#\n", "#\n", "#\n",
          "chr1\tTP53\t.\t.\t.\t9.8\n"]⟩] =
      "Gene\tA\tB\nTP53\t12.3\t9.8\n" := by
  decide

/-- Claim C3: for every input, the emitted table has one header row
`Gene` followed by the sample ids in first-seen discovery order with
duplicates removed, registering an already-present sample id changes
nothing, there is exactly one data row per distinct gene name extracted
across all processed files (the row keys are the distinct extracted genes,
without duplicates), and every cell of a (gene, sample) pair with no stored
value is the literal string `NA`. -/
theorem C3_theorem (p : Params) (files : List TsvFile) (st : AggState)
    (hst : st = (runFiles p files).st) :
    (emitTable st).headD [] = "Gene" :: st.sample_ids
    ∧ st.sample_ids = dedupFirstSeen (files.map (fun f => sampleIdOf f.basename))
    ∧ st.sample_ids.Nodup
    ∧ (∀ sid ∈ st.sample_ids, registerSample st sid = st)
    ∧ (emitTable st).length = 1 + st.gene_data.length
    ∧ st.gene_data.map Prod.fst =
        dedupFirstSeen ((allPairs p files).map (fun t => t.1))
    ∧ (st.gene_data.map Prod.fst).Nodup
    ∧ ∀ i j (hi : i < st.gene_data.length) (hj : j < st.sample_ids.length),
        lookupA (st.sample_ids.get ⟨j, hj⟩) (st.gene_data.get ⟨i, hi⟩).2 = none →
        cellAt (emitTable st) (i + 1) (j + 1) = "NA" := by
  subst hst
  refine ⟨rfl, runFiles_sample_ids p files, ?_, ?_, ?_, runFiles_keys p files, ?_, ?_⟩
  · rw [runFiles_sample_ids]
    exact nodup_dedupFirstSeen _
  · exact fun sid h => registerSample_mem _ sid h
  · simp [emitTable, Nat.add_comm]
  · rw [runFiles_keys]
    exact nodup_dedupFirstSeen _
  · intro i j hi hj hnone
    rw [cellAt_emitTable _ i j hi hj, hnone]
    rfl

/-- Claim C3 (witness): the theorem applied to a concrete two-file input in
which gene `G1` has no value for sample `B`, giving an `NA` cell. -/
theorem C3_witness :
    cellAt (emitTable (runFiles defaultParams
      [⟨"A.tsv", .ok ["#\n", "#\n", "#\n", "#\n", "#\n", "#\n",
          "c\tG1\t.\t.\t.\t1.5\n"]⟩,
       ⟨"B.tsv", .ok ["#\n", "#\n", "#\n", "#\n", "#\n", "#\n",
          "c\tG2\t.\t.\t.\t2.5\n"]⟩]).st) 1 2 = "NA" :=
  (C3_theorem defaultParams
    [⟨"A.tsv", .ok ["#\n", "#\n", "#\n", "#\n", "#\n", "#\n",
        "c\tG1\t.\t.\t.\t1.5\n"]⟩,
     ⟨"B.tsv", .ok ["#\n", "#\n", "#\n", "#\n", "#\n", "#\n",
        "c\tG2\t.\t.\t.\t2.5\n"]⟩] _ rfl).2.2.2.2.2.2.2
    0 1 (by decide) (by decide) (by decide)

/-- Claim C4: recording overwrites the previous value of the exact
(gene, sample) pair and leaves every other pair unchanged; distinct-keys
well-formedness (at most one stored value per (gene, sample) pair) is
preserved by every record and holds for the run's final mapping; the stored
value of every (gene, sample) pair equals the value of the last line
processed for that pair; and a cell of the output matrix whose pair has a
last processed value shows exactly that raw string. -/
theorem C4_theorem (p : Params) (files : List TsvFile) :
    (∀ gd g s v g0 s0, lookupGS (updateGene g s v gd) g0 s0 =
        if g = g0 ∧ s = s0 then some v else lookupGS gd g0 s0)
    ∧ (∀ gd g s v, WFgd gd → WFgd (updateGene g s v gd))
    ∧ WFgd (runFiles p files).st.gene_data
    ∧ (∀ g s, lookupGS (runFiles p files).st.gene_data g s =
        lastValue (allPairs p files) g s)
    ∧ ∀ i j (hi : i < (runFiles p files).st.gene_data.length)
        (hj : j < (runFiles p files).st.sample_ids.length) (v : String),
        lastValue (allPairs p files)
            ((runFiles p files).st.gene_data.get ⟨i, hi⟩).1
            ((runFiles p files).st.sample_ids.get ⟨j, hj⟩) = some v →
        cellAt (emitTable (runFiles p files).st) (i + 1) (j + 1) = v := by
  have hlast : ∀ g s, lookupGS (runFiles p files).st.gene_data g s =
      lastValue (allPairs p files) g s := by
    intro g s
    rw [runFiles_gene_data]
    exact lookupGS_foldRecord_nil _ g s
  refine ⟨fun gd g s v g0 s0 => lookupGS_updateGene g s v g0 s0 gd,
    fun gd g s v h => WFgd_updateGene g s v gd h, WFgd_runFiles p files,
    hlast, ?_⟩
  intro i j hi hj v hv
  rw [← hlast] at hv
  have hkeys : ((runFiles p files).st.gene_data.map Prod.fst).Nodup :=
    (WFgd_runFiles p files).1
  have hgene := lookupGene_getElem (runFiles p files).st.gene_data i hi hkeys
  rw [lookupGS, hgene] at hv
  have hv' : lookupA ((runFiles p files).st.sample_ids.get ⟨j, hj⟩)
      ((runFiles p files).st.gene_data.get ⟨i, hi⟩).2 = some v := hv
  rw [cellAt_emitTable _ i j hi hj, hv']
  rfl

/-- Claim C4 (witness): a file holding two lines for the same gene; the
output cell shows the value of the second (last) line. -/
theorem C4_witness :
    cellAt (emitTable (runFiles defaultParams
      [⟨"A.tsv", .ok ["#\n", "#\n", "#\n", "#\n", "#\n", "#\n",
          "c\tTP53\t.\t.\t.\t1.0\n", "c\tTP53\t.\t.\t.\t2.0\n"]⟩]).st) 1 1 =
      "2.0" :=
  (C4_theorem defaultParams
    [⟨"A.tsv", .ok ["#\n", "#\n", "#\n", "#\n", "#\n", "#\n",
        "c\tTP53\t.\t.\t.\t1.0\n", "c\tTP53\t.\t.\t.\t2.0\n"]⟩]).2.2.2.2
    0 0 (by decide) (by decide) "2.0" (by decide)

/-- Claim C5: a data line whose tab-split field count is at most
`max geneColumnIndex valueColumnIndex` yields no pair and leaves the
aggregation state untouched. -/
theorem C5_theorem (p : Params) (line : String)
    (h : (lineParts line).length ≤
      max p.gene_column_index p.expression_column_index) :
    parseLine p.gene_column_index p.expression_column_index line = none
    ∧ ∀ sid st, lineStep p sid st line = st := by
  have hp : parseLine p.gene_column_index p.expression_column_index line = none := by
    unfold parseLine
    rw [if_pos h]
  exact ⟨hp, fun sid st => by simp [lineStep, hp]⟩

/-- Claim C5 (witness): with the default indices, a two-field line is
skipped and changes nothing. -/
theorem C5_witness :
    parseLine 1 5 "ENSG00000000003.15\tTSPAN6\n" = none ∧
    lineStep defaultParams "A" emptyAgg "ENSG00000000003.15\tTSPAN6\n" =
      emptyAgg := by
  have h := C5_theorem defaultParams "ENSG00000000003.15\tTSPAN6\n" (by decide)
  exact ⟨h.1, h.2 "A" emptyAgg⟩

/-- Claim C6 (counterexample): a file whose read fails after a well-formed
data line was already processed is reported as failed, yet contributes a
(gene, value) record to the expression mapping — the mapping is not empty,
so a file that cannot be read does not always contribute zero records. -/
theorem C6_counterexample :
    isFail (ReadResult.failAfter ["#\n", "#\n", "#\n", "#\n", "#\n", "#\n",
      "chr1\tTP53\t.\t.\t.\t12.3\n"]) = true ∧
    (runFiles defaultParams [⟨"A.tsv", .failAfter ["#\n", "#\n", "#\n", "#\n",
      "#\n", "#\n", "chr1\tTP53\t.\t.\t.\t12.3\n"]⟩]).errors = ["A.tsv"] ∧
    (runFiles defaultParams [⟨"A.tsv", .failAfter ["#\n", "#\n", "#\n", "#\n",
      "#\n", "#\n", "chr1\tTP53\t.\t.\t.\t12.3\n"]⟩]).st.gene_data =
      [("TP53", [("A", "12.3")])] ∧
    [("TP53", [("A", "12.3")])] ≠
      ([] : List (String × List (String × String))) := by
  decide

/-- Claim C6 (amended): a failing read is caught, changes the aggregation
state exactly as a successful read of the lines yielded before the failure
would (so a file that fails before yielding any line contributes zero
records), appends one error report for that file, every run's error list
names exactly the failed files, and processing continues with the remaining
files. -/
theorem C6_theorem (p : Params) (r : RunResult) (name : String)
    (lines : List String) (files : List TsvFile) (f : TsvFile) :
    (stepFile p r ⟨name, .failAfter lines⟩).st =
        (stepFile p r ⟨name, .ok lines⟩).st
    ∧ (stepFile p r ⟨name, .failAfter []⟩).st.gene_data = r.st.gene_data
    ∧ (stepFile p r ⟨name, .failAfter lines⟩).errors = r.errors ++ [name]
    ∧ (runFiles p files).errors =
        (files.filter (fun f => isFail f.content)).map (fun f => f.basename)
    ∧ (f :: files).foldl (stepFile p) r = files.foldl (stepFile p) (stepFile p r f) := by
  refine ⟨rfl, ?_, rfl, runFiles_errors p files, rfl⟩
  show (processLines p (sampleIdOf name)
      (registerSample r.st (sampleIdOf name))
      (([] : List String).drop p.skip_rows)).gene_data = r.st.gene_data
  rw [List.drop_nil]
  exact gene_data_registerSample r.st (sampleIdOf name)

/-- Claim C7 (counterexample): a second file with the same base name (hence
the same sample id) whose open fails leaves the aggregator state — sample
ids and expression mapping — exactly unchanged, so a failure can leave the
aggregator state unchanged. -/
theorem C7_counterexample :
    isFail (ReadResult.failAfter ([] : List String)) = true ∧
    (runFiles defaultParams
      [⟨"X.tsv", .ok ["#\n", "#\n", "#\n", "#\n", "#\n", "#\n",
          "c\tG1\t.\t.\t.\t1.0\n"]⟩,
       ⟨"X.tsv", .failAfter []⟩]).st =
      (runFiles defaultParams
        [⟨"X.tsv", .ok ["#\n", "#\n", "#\n", "#\n", "#\n", "#\n",
            "c\tG1\t.\t.\t.\t1.0\n"]⟩]).st := by
  decide

/-- Claim C7 (amended): the sample id of every discovered file is registered
before the file is opened — appended when not already present — so even a
file whose read fails contributes its sample id as an output column, all of
whose cells are `NA` when no processed line carries that sample id; when
the sample id was new the sample list grows, but a failing file whose
sample id is already registered leaves the aggregator state unchanged. -/
theorem C7_theorem :
    (∀ (p : Params) (r : RunResult) (f : TsvFile),
        sampleIdOf f.basename ∈ (stepFile p r f).st.sample_ids)
    ∧ (∀ (p : Params) (r : RunResult) (fs : List TsvFile) (s : String),
        s ∈ r.st.sample_ids → s ∈ (fs.foldl (stepFile p) r).st.sample_ids)
    ∧ (∀ (p : Params) (r : RunResult) (f : TsvFile),
        sampleIdOf f.basename ∉ r.st.sample_ids →
        (stepFile p r f).st.sample_ids =
          r.st.sample_ids ++ [sampleIdOf f.basename])
    ∧ (∀ (p : Params) (pre post : List TsvFile) (f : TsvFile),
        sampleIdOf f.basename ∈
          (emitTable (runFiles p (pre ++ f :: post)).st).headD [])
    ∧ ∀ (p : Params) (files : List TsvFile) (s : String),
        s ∉ (allPairs p files).map (fun t => t.2.1) →
        ∀ i j (hi : i < (runFiles p files).st.gene_data.length)
          (hj : j < (runFiles p files).st.sample_ids.length),
          (runFiles p files).st.sample_ids.get ⟨j, hj⟩ = s →
          cellAt (emitTable (runFiles p files).st) (i + 1) (j + 1) = "NA" := by
  have h1 : ∀ (p : Params) (r : RunResult) (f : TsvFile),
      sampleIdOf f.basename ∈ (stepFile p r f).st.sample_ids := by
    intro p r f
    rw [stepFile_sample_ids]
    by_cases hmem : sampleIdOf f.basename ∈ r.st.sample_ids <;> simp [hmem]
  have h2 : ∀ (p : Params) (fs : List TsvFile) (r : RunResult) (s : String),
      s ∈ r.st.sample_ids → s ∈ (fs.foldl (stepFile p) r).st.sample_ids := by
    intro p fs r s hs
    rw [foldl_stepFile_sample_ids, mem_regFold]
    exact Or.inl hs
  refine ⟨h1, fun p r fs s hs => h2 p fs r s hs, ?_, ?_, ?_⟩
  · intro p r f h
    rw [stepFile_sample_ids, if_neg h]
  · intro p pre post f
    show sampleIdOf f.basename ∈
      "Gene" :: (runFiles p (pre ++ f :: post)).st.sample_ids
    refine List.mem_cons_of_mem _ ?_
    show sampleIdOf f.basename ∈
      ((pre ++ f :: post).foldl (stepFile p) ⟨emptyAgg, []⟩).st.sample_ids
    rw [List.foldl_append, List.foldl_cons]
    exact h2 p post _ _ (h1 p _ f)
  · intro p files s hs i j hi hj hsj
    have hnone : lookupA s ((runFiles p files).st.gene_data.get ⟨i, hi⟩).2 = none := by
      refine colNone_foldRecord (allPairs p files) [] s hs ?_ _ ?_
      · intro gm hm
        simp at hm
      · rw [← runFiles_gene_data]
        exact ((runFiles p files).st.gene_data.get_mem _ _)
    rw [cellAt_emitTable _ i j hi hj, hsj, hnone]
    rfl

/-- Claim C7 (witness): the amended theorem applied to a run whose second
file fails to open; its sample id `X` still appears in the header and its
column cell is `NA`. -/
theorem C7_witness :
    sampleIdOf "X.tsv" ∈
      (emitTable (runFiles defaultParams
        [⟨"A.tsv", .ok ["#\n", "#\n", "#\n", "#\n", "#\n", "#\n",
            "c\tG1\t.\t.\t.\t1.0\n"]⟩,
         ⟨"X.tsv", .failAfter []⟩]).st).headD [] ∧
    cellAt (emitTable (runFiles defaultParams
      [⟨"A.tsv", .ok ["#\n", "#\n", "#\n", "#\n", "#\n", "#\n",
          "c\tG1\t.\t.\t.\t1.0\n"]⟩,
       ⟨"X.tsv", .failAfter []⟩]).st) 1 2 = "NA" :=
  ⟨C7_theorem.2.2.2.1 defaultParams
    [⟨"A.tsv", .ok ["#\n", "#\n", "#\n", "#\n", "#\n", "#\n",
        "c\tG1\t.\t.\t.\t1.0\n"]⟩] [] ⟨"X.tsv", .failAfter []⟩,
   C7_theorem.2.2.2.2 defaultParams
    [⟨"A.tsv", .ok ["#\n", "#\n", "#\n", "#\n", "#\n", "#\n",
        "c\tG1\t.\t.\t.\t1.0\n"]⟩,
     ⟨"X.tsv", .failAfter []⟩] "X" (by decide) 0 1 (by decide) (by decide)
    (by decide)⟩

/-- Claim C8: a file with at most `skip_rows` lines contributes no gene
records, reports no error, and yields no pairs. -/
theorem C8_theorem (p : Params) (r : RunResult) (name : String)
    (lines : List String) (h : lines.length ≤ p.skip_rows) :
    (stepFile p r ⟨name, .ok lines⟩).st.gene_data = r.st.gene_data
    ∧ (stepFile p r ⟨name, .ok lines⟩).errors = r.errors
    ∧ filePairs p ⟨name, .ok lines⟩ = [] := by
  have hdrop : lines.drop p.skip_rows = [] := List.drop_eq_nil_of_le h
  refine ⟨?_, rfl, ?_⟩
  · show (processLines p (sampleIdOf name)
        (registerSample r.st (sampleIdOf name))
        (lines.drop p.skip_rows)).gene_data = r.st.gene_data
    rw [hdrop]
    exact gene_data_registerSample r.st (sampleIdOf name)
  · unfold filePairs
    rw [show linesOf (.ok lines) = lines from rfl, hdrop]
    rfl

/-- Claim C8 (witness): a file with exactly the default six header lines
contributes zero records. -/
theorem C8_witness :
    (stepFile defaultParams ⟨emptyAgg, []⟩
      ⟨"A.tsv", .ok ["#\n", "#\n", "#\n", "#\n", "#\n", "#\n"]⟩).st.gene_data =
      [] ∧
    filePairs defaultParams
      ⟨"A.tsv", .ok ["#\n", "#\n", "#\n", "#\n", "#\n", "#\n"]⟩ = [] := by
  have h := C8_theorem defaultParams ⟨emptyAgg, []⟩ "A.tsv"
    ["#\n", "#\n", "#\n", "#\n", "#\n", "#\n"] (by decide)
  exact ⟨h.1, h.2.2⟩

/-- Claim C9 (counterexample): on the base name `a.tsv.b.tsv`, the code's
sample id is `a` (everything before the first `.tsv`), not the base name
with the first occurrence of `.tsv` deleted, which is `a.b.tsv`. -/
theorem C9_counterexample :
    sampleIdOf "a.tsv.b.tsv" = "a" ∧
    removeFirstTsv "a.tsv.b.tsv" = "a.b.tsv" ∧
    sampleIdOf "a.tsv.b.tsv" ≠ removeFirstTsv "a.tsv.b.tsv" := by
  decide

/-- Claim C9 (amended): the sample id is the prefix of the base name before
the first occurrence of `.tsv` — everything from that occurrence on is
discarded; when `.tsv` occurs only as the final suffix, this agrees with
deleting that occurrence, i.e. with removing the extension. -/
theorem C9_theorem (pre suf : List Char) (h : hasTsv pre = false) :
    sampleIdOf ⟨pre ++ '.' :: 't' :: 's' :: 'v' :: suf⟩ = ⟨pre⟩
    ∧ removeFirstTsv ⟨pre ++ '.' :: 't' :: 's' :: 'v' :: []⟩ = ⟨pre⟩ := by
  constructor
  · show String.mk (beforeTsv (pre ++ '.' :: 't' :: 's' :: 'v' :: suf)) = ⟨pre⟩
    rw [beforeTsv_append pre suf h]
  · show String.mk (removeFirstTsvL (pre ++ '.' :: 't' :: 's' :: 'v' :: [])) = ⟨pre⟩
    rw [removeFirstTsvL_suffix pre h]

/-- Claim C9 (witness): the amended theorem applied to the base name
`sample01.tsv`, whose sample id is `sample01`. -/
theorem C9_witness :
    hasTsv "sample01".data = false ∧ sampleIdOf "sample01.tsv" = "sample01" :=
  ⟨by decide, (C9_theorem (String.data "sample01") [] (by decide)).1⟩

/-- Claim C10: the pipeline is a function of the discovered file list, the
file contents and the parameters alone — two runs on equal inputs produce
byte-identical output text. -/
theorem C10_theorem (p q : Params) (files gs : List TsvFile)
    (hp : p = q) (hf : files = gs) :
    parse_gene_expression_files p files = parse_gene_expression_files q gs := by
  rw [hp, hf]

/-- Claim C10 (witness): determinism at a concrete input. -/
theorem C10_witness :
    parse_gene_expression_files defaultParams
      [⟨"A.tsv", .ok ["#\n", "#\n", "#\n", "#\n", "#\n", "#\n",
          "chr1\tTP53\t.\t.\t.\t12.3\n"]⟩] =
    parse_gene_expression_files defaultParams
      [⟨"A.tsv", .ok ["#\n", "#\n", "#\n", "#\n", "#\n", "#\n",
          "chr1\tTP53\t.\t.\t.\t12.3\n"]⟩] :=
  C10_theorem defaultParams defaultParams
    [⟨"A.tsv", .ok ["#\n", "#\n", "#\n", "#\n", "#\n", "#\n",
        "chr1\tTP53\t.\t.\t.\t12.3\n"]⟩]
    [⟨"A.tsv", .ok ["#\n", "#\n", "#\n", "#\n", "#\n", "#\n",
        "chr1\tTP53\t.\t.\t.\t12.3\n"]⟩] rfl rfl

